import Mathlib

/-!
# FileVue core: shallow embedding and verification

Shallow embedding of the security core of the FileVue server
(src/server/src): the path sandbox (src/server/src/utils/index.js),
the session-auth middleware (src/server/src/server.js), the search
route (src/server/src/routes/search.js) and the share registry
(src/server/src/routes/shares.js), together with theorems settling the
frozen claims about them.

Conventions of the embedding:
* Absolute filesystem paths are lists of path components
  (for example "/data/docs" is represented as ["data", "docs"]).
* The JavaScript string-level checks (String.startsWith and friends)
  are modelled on the rendered string form of a path, exactly because
  the source performs them on strings and not on components.
* Strings compared as Buffers (access codes) are modelled as lists of
  natural-number byte values.
* Wall-clock time is modelled by an explicit clock function from a
  read counter to a timestamp; each Date.now() call in the source
  consumes one reading.
-/

deriving instance DecidableEq for Except

namespace FileVue

/-! ## String helpers (models of the JavaScript string primitives) -/

/-- Model of the JavaScript method a.startsWith(b): b is a string
whose characters form an initial segment of the characters of a. -/
def strStartsWith (stem s : String) : Bool :=
  stem.data.isPrefixOf s.data

/-- Model of the JavaScript method a.endsWith(b). -/
def strEndsWith (suffixStr s : String) : Bool :=
  suffixStr.data.isSuffixOf s.data

/-! ## Path model

Node's path module works on strings; we represent a parsed path as an
absolute flag plus the list of components between the slashes, and we
re-render to a string where the source performs a string check. -/

/-- A client-supplied path: absolute marker plus slash-separated
components, prior to any normalization. -/
structure JsPath where
  abs : Bool
  comps : List String
deriving DecidableEq, Repr

/-- One step of path normalization: push one component onto the
reversed accumulator, folding "." and "..". Mirrors the component
handling of Node path.normalize: empty and "." components vanish,
".." pops the previous real component, an unmatched ".." is dropped
at the root of an absolute path and kept for a relative path. -/
def normStep (abs : Bool) (acc : List String) (c : String) : List String :=
  if c = "" ∨ c = "." then acc
  else if c = ".." then
    match acc with
    | top :: rest => if top = ".." then ".." :: acc else rest
    | [] => if abs then [] else [".."]
  else c :: acc

/-- Model of Node path.normalize on the component list: the resulting
component list after folding "." and ".." entries. -/
def normalizeComps (abs : Bool) (cs : List String) : List String :=
  (cs.foldl (normStep abs) []).reverse

/-- Join components into a relative path string; the empty component
list renders as "." exactly as path.normalize returns "." for an
input that folds away completely. -/
def joinComps : List String → String
  | [] => ""
  | [c] => c
  | c :: rest => c ++ "/" ++ joinComps rest

/-- Render an absolute path (component list) as the string Node would
produce: "/" followed by the components joined with "/". -/
def renderAbs (comps : List String) : String :=
  "/" ++ joinComps comps

/-- Render a normalized relative path the way path.normalize renders
it: "." when nothing remains, else the components joined with "/". -/
def renderRel (comps : List String) : String :=
  match comps with
  | [] => "."
  | cs => joinComps cs

/-- Model of Node path.resolve(root, p) for an absolute root given as
a component list: an absolute p replaces the root, a relative p is
appended and the concatenation is normalized. Returns the component
list of the resulting absolute path. -/
def jsResolve (root : List String) (p : JsPath) : List String :=
  if p.abs then normalizeComps true p.comps
  else normalizeComps true (root ++ p.comps)

/-- The path p is the root itself or a descendant of it, judged on
components (this is the real containment relation the spec means by
"equal to the root directory or a descendant of it"). -/
def isUnderRoot (root p : List String) : Bool :=
  root.isPrefixOf p

/-! ## PathSandbox (src/server/src/utils/index.js)

function resolveSafePath(relativePath = '.') \x7b
  const normalized = path.normalize(relativePath || '.');
  const resolved = path.resolve(ROOT_DIRECTORY, normalized);
  if (!resolved.startsWith(ROOT_DIRECTORY)) \x7b
    throw new Error('Path escapes the configured root directory.');
  \x7d
  return resolved;
\x7d
-/

/-- Model of resolveSafePath: lexically resolve the client path
against the root and accept it when the rendered resolved string
starts with the rendered root string, exactly as the source checks
resolved.startsWith(ROOT_DIRECTORY). -/
def resolveSafePath (root : List String) (relativePath : JsPath) :
    Except String (List String) :=
  let normalized : JsPath :=
    ⟨relativePath.abs, normalizeComps relativePath.abs relativePath.comps⟩
  let resolved := jsResolve root normalized
  if strStartsWith (renderAbs root) (renderAbs resolved) then .ok resolved
  else .error "Path escapes the configured root directory."

/-- Outcome of one fsp.realpath call: the canonical path of an
existing file, or the ENOENT error, or any other filesystem error. -/
inductive RealpathResult where
  | found (p : List String)
  | enoent
  | ioError
deriving DecidableEq, Repr

/-- Model of Node path.dirname on an absolute component list. -/
def dirnameComps (p : List String) : List String :=
  p.dropLast

/-- Model of resolveSafePathWithSymlinkCheck: after the lexical
resolution, canonicalize via realpath (the realpath behaviour of the
filesystem is a parameter) and re-check the string form against the
root; for a not-yet-existing target apply the same check to the real
path of the parent directory and return the lexically resolved path;
any other realpath failure is re-thrown as a filesystem error. -/
def resolveSafePathWithSymlinkCheck (root : List String)
    (relativePath : JsPath) (realpath : List String → RealpathResult) :
    Except String (List String) :=
  match resolveSafePath root relativePath with
  | .error e => .error e
  | .ok resolved =>
    match realpath resolved with
    | .found realPath =>
      if strStartsWith (renderAbs root) (renderAbs realPath) then .ok realPath
      else .error "Path escapes the configured root directory via symlink."
    | .enoent =>
      match realpath (dirnameComps resolved) with
      | .found parentReal =>
        if strStartsWith (renderAbs root) (renderAbs parentReal) then
          .ok resolved
        else .error "Path escapes the configured root directory via symlink."
      | _ => .error "filesystem error"
    | .ioError => .error "filesystem error"

/-! ## SessionAuthority (src/server/src/server.js, src/server/src/routes files.js part: auth routes)

The server keeps one mutable counter, starting at 1:
  let sessionVersion = 1;
  function incrementSessionVersion() \x7b sessionVersion += 1; return sessionVersion; \x7d
Tokens are JSON web tokens signed with SESSION_SECRET carrying
\x7busername, sessionVersion\x7d and an expiry; jwt.verify throws on a bad
signature or an elapsed expiry. -/

/-- The payload jwt.sign embeds: the username and the global session
version current at mint time. -/
structure TokenPayload where
  username : String
  sessionVersion : Nat
deriving DecidableEq, Repr

/-- A signed token: payload, absolute expiry instant, and the secret
it was signed with (a signature is valid exactly when the verifying
secret equals the signing secret). -/
structure SignedToken where
  payload : TokenPayload
  exp : Nat
  sig : String
deriving DecidableEq, Repr

/-- Model of jwt.sign(\x7busername, sessionVersion\x7d, secret,
\x7bexpiresIn: ttl\x7d) at instant now. -/
def jwtSign (secret : String) (payload : TokenPayload) (now ttl : Nat) :
    SignedToken :=
  ⟨payload, now + ttl, secret⟩

/-- Model of jwt.verify(token, secret) at instant now: the payload
when the signature matches and the token has not expired, none when
verification throws. -/
def jwtVerify (secret : String) (t : SignedToken) (now : Nat) :
    Option TokenPayload :=
  if t.sig = secret ∧ now < t.exp then some t.payload else none

/-- Outcome of the requireAuth middleware: pass the request through
(with the decoded user when one was checked), or reject it with an
HTTP status and response body. -/
inductive AuthOutcome where
  | allow (user : Option TokenPayload)
  | deny (status : Nat) (body : String)
deriving DecidableEq, Repr

/-- The auth-exempt fixed paths of requireAuth. -/
def isPublicAuthPath (p : String) : Bool :=
  p = "/auth/login" ∨ p = "/auth/status" ∨ p = "/auth/logout" ∨ p = "/health"

/-- The share endpoints requireAuth lets through unauthenticated. -/
def isPublicSharePath (p : String) : Bool :=
  strStartsWith "/shares/" p &&
    (strEndsWith "/verify" p || strEndsWith "/content" p ||
     strEndsWith "/download" p || strEndsWith "/entries" p ||
     strEndsWith "/thumbnail" p || strEndsWith "/preview" p)

/-- Model of the requireAuth middleware of src/server/src/server.js:
skip when auth is disabled, for OPTIONS requests and for the public
paths; then demand a token, verify its signature and expiry, and
reject a token whose embedded sessionVersion differs from the current
global one. Each branch carries the exact client-facing status and
body of the source. -/
def requireAuth (authRequired : Bool) (secret : String)
    (sessionVersion : Nat) (method reqPath : String)
    (token : Option SignedToken) (now : Nat) : AuthOutcome :=
  if !authRequired then .allow none
  else if method = "OPTIONS" then .allow none
  else if isPublicAuthPath reqPath then .allow none
  else if isPublicSharePath reqPath then .allow none
  else
    match token with
    | none => .deny 401 "Authentication required."
    | some t =>
      match jwtVerify secret t now with
      | none => .deny 401 "Invalid or expired token."
      | some payload =>
        if payload.sessionVersion ≠ sessionVersion then
          .deny 401 "Session has been invalidated."
        else .allow (some payload)

/-- Model of the token minted by POST /api/auth/login: signed with
the session secret, carrying the username and the session version
current at mint time, expiring after the configured TTL. -/
def loginToken (secret username : String) (sessionVersion now ttl : Nat) :
    SignedToken :=
  jwtSign secret ⟨username, sessionVersion⟩ now ttl

/-- Model of incrementSessionVersion (the body of the
POST /api/auth/invalidate-sessions admin route). -/
def incrementSessionVersion (sessionVersion : Nat) : Nat :=
  sessionVersion + 1

/-- The session version after n invalidate-all operations. -/
def iterInvalidateAll (n sessionVersion : Nat) : Nat :=
  match n with
  | 0 => sessionVersion
  | n + 1 => incrementSessionVersion (iterInvalidateAll n sessionVersion)

/-! ## SearchEngine (src/server/src/routes/search.js)

searchDirectory(dirPath, query, maxResults, results, startTime,
timeout, searchState) recursively walks a directory: it first checks
the two stopping conditions, then splits the dirents into files and
directories, scans the files, then scans the directories, recursing
into each.  Date.now() is modelled by an explicit clock function read
at an incrementing counter carried in the search state. -/

/-- A snapshot of a directory tree handed to the search: a file, or a
directory with its children (the filesystem collaborator is assumed
readable everywhere; the per-entry error handling of the source then
never fires). -/
inductive FsTree where
  | file (name : String)
  | dir (name : String) (children : List FsTree)
deriving Repr

/-- The fields of a search result entry that the claims are about
(name and kind; the stat metadata of the source entry is omitted). -/
structure SEntry where
  name : String
  isDirectory : Bool
deriving DecidableEq, Repr

/-- State threaded through the traversal: the accumulated results
array, the number of Date.now() readings consumed so far, and the
searchState.timedOut flag. -/
structure SearchSt where
  results : List SEntry
  tick : Nat
  timedOut : Bool
deriving DecidableEq, Repr

/-- The parameters fixed over one traversal: the clock, the
startTime reading, and the clamped timeout and maxResults values. -/
structure SearchParams where
  clock : Nat → Int
  startTime : Int
  timeout : Int
  maxResults : Int

/-- Model of the JavaScript toLowerCase on one character, for the
character range the source compares (ASCII). -/
def jsCharToLower (c : Char) : Char :=
  if 65 ≤ c.toNat ∧ c.toNat ≤ 90 then Char.ofNat (c.toNat + 32) else c

/-- Model of the JavaScript toLowerCase on a string, as its character
list. -/
def strToLower (s : String) : List Char :=
  s.data.map jsCharToLower

/-- needle occurs as a contiguous run inside the character list (the
JavaScript String.includes). -/
def hasInfixChars (needle : List Char) : List Char → Bool
  | [] => needle.isEmpty
  | c :: rest => needle.isPrefixOf (c :: rest) || hasInfixChars needle rest

/-- Model of lowerName.includes(lowerQuery): case-insensitive
substring containment of the query in the entry name. -/
def nameMatches (query name : String) : Bool :=
  hasInfixChars (strToLower query) (strToLower name)

/-- The file pass of searchDirectory: iterate the dirents, handling
only the files.  (The source first partitions dirents into files and
directories and loops the file array; iterating the full dirent list
and skipping directories visits the same files in the same order.)
Each handled file re-checks the result limit and the timeout before
being examined, exactly as the loop body of the source does. -/
def fileLoop (p : SearchParams) (q : String) :
    List FsTree → SearchSt → SearchSt
  | [], st => st
  | .dir _ _ :: rest, st => fileLoop p q rest st
  | .file name :: rest, st =>
    if (st.results.length : Int) ≥ p.maxResults then st
    else
      let now := p.clock st.tick
      let st1 : SearchSt := { st with tick := st.tick + 1 }
      if now - p.startTime > p.timeout then { st1 with timedOut := true }
      else
        let st2 := if nameMatches q name then
            { st1 with results := st1.results ++ [⟨name, false⟩] } else st1
        fileLoop p q rest st2

/-- The directory pass of searchDirectory: iterate the dirents,
handling only the directories; for each one re-check both stopping
conditions, push it when its name matches, then perform the recursive
searchDirectory call on its children (the block computing st3 is that
recursive call inlined: the entry checks of searchDirectory followed
by its file pass and directory pass). -/
def dirLoop (p : SearchParams) (q : String) :
    List FsTree → SearchSt → SearchSt
  | [], st => st
  | .file _ :: rest, st => dirLoop p q rest st
  | .dir name children :: rest, st =>
    if (st.results.length : Int) ≥ p.maxResults then st
    else
      let now := p.clock st.tick
      let st1 : SearchSt := { st with tick := st.tick + 1 }
      if now - p.startTime > p.timeout then { st1 with timedOut := true }
      else
        let st2 := if nameMatches q name then
            { st1 with results := st1.results ++ [⟨name, true⟩] } else st1
        let st3 :=
          if (st2.results.length : Int) ≥ p.maxResults then st2
          else
            let now2 := p.clock st2.tick
            let st2a : SearchSt := { st2 with tick := st2.tick + 1 }
            if now2 - p.startTime > p.timeout then { st2a with timedOut := true }
            else dirLoop p q children (fileLoop p q children st2a)
        dirLoop p q rest st3

/-- Model of searchDirectory on the children of one directory: check
the result limit, check the timeout, then run the file pass followed
by the directory pass. -/
def searchDirectory (p : SearchParams) (q : String)
    (children : List FsTree) (st : SearchSt) : SearchSt :=
  if (st.results.length : Int) ≥ p.maxResults then st
  else
    let now := p.clock st.tick
    let st1 : SearchSt := { st with tick := st.tick + 1 }
    if now - p.startTime > p.timeout then { st1 with timedOut := true }
    else dirLoop p q children (fileLoop p q children st1)

/-- Model of the JavaScript idiom (parseInt(x) || d): the fallback d
is used when the value is absent or not a number (modelled none) and
when it parsed to 0, since 0 is falsy. -/
def jsOrInt (v : Option Int) (d : Int) : Int :=
  match v with
  | none => d
  | some x => if x = 0 then d else x

/-- The limit clamp of the GET /api/search handler:
Math.min(parseInt(req.query.limit, 10) || 100, 500). -/
def clampLimit (q : Option Int) : Int :=
  min (jsOrInt q 100) 500

/-- The timeout clamp of the GET /api/search handler:
Math.min(parseInt(req.query.timeout, 10) || 10000, 30000). -/
def clampTimeout (q : Option Int) : Int :=
  min (jsOrInt q 10000) 30000

/-- One character of JavaScript whitespace as trimmed by trim(). -/
def isWsChar (c : Char) : Bool :=
  c = ' ' ∨ c = '\t' ∨ c = '\n' ∨ c = '\r'

/-- Model of the JavaScript String.trim. -/
def jsTrim (s : String) : String :=
  ⟨((s.data.dropWhile isWsChar).reverse.dropWhile isWsChar).reverse⟩

/-- Lexicographic strict ordering on character lists (the ordering
localeCompare induces on the names the server handles). -/
def charListLt : List Char → List Char → Bool
  | [], [] => false
  | [], _ :: _ => true
  | _ :: _, [] => false
  | a :: as, b :: bs =>
    if a.toNat < b.toNat then true
    else if b.toNat < a.toNat then false
    else charListLt as bs

/-- The sort comparator of the handler: directories first, then by
name (localeCompare modelled as the character ordering). -/
def entryLe (a b : SEntry) : Bool :=
  if a.isDirectory ≠ b.isDirectory then a.isDirectory
  else !(charListLt b.name.data a.name.data)

/-- Insert one entry into an already sorted result list. -/
def insertEntry (e : SEntry) : List SEntry → List SEntry
  | [] => [e]
  | x :: xs => if entryLe e x then e :: x :: xs else x :: insertEntry e xs

/-- The final sort of the handler, applied to the collected result
set after traversal. -/
def sortEntries : List SEntry → List SEntry
  | [] => []
  | x :: xs => insertEntry x (sortEntries xs)

/-- Response of the GET /api/search handler, restricted to the fields
the claims quantify over (results, truncated, timedOut; the echoed
query, path and duration fields are omitted). -/
inductive SearchResp where
  | badRequest (body : String)
  | ok (results : List SEntry) (truncated timedOut : Bool)
deriving DecidableEq, Repr

/-- Model of the GET /api/search handler over an already resolved
root directory tree: read the start time, clamp limit and timeout,
reject an absent or all-whitespace query with the 400 error of the
source, then traverse, sort the collected results, and report
truncated as results.length >= limit together with the timedOut
flag of the search state. -/
def searchHandler (clock : Nat → Int) (tree : List FsTree)
    (q : Option String) (limitQ timeoutQ : Option Int) : SearchResp :=
  let startTime := clock 0
  let limit := clampLimit limitQ
  let timeout := clampTimeout timeoutQ
  match q with
  | none => .badRequest "Query parameter \"q\" is required."
  | some query =>
    if jsTrim query = "" then .badRequest "Query parameter \"q\" is required."
    else
      let p : SearchParams := ⟨clock, startTime, timeout, limit⟩
      let stF := searchDirectory p (jsTrim query) tree ⟨[], 1, false⟩
      let sorted := sortEntries stF.results
      .ok sorted (decide ((stF.results.length : Int) ≥ limit)) stF.timedOut

/-- A flat tree of n files all named "doc": the 1000-matching-entries
scenario of the spec. -/
def mkFiles (n : Nat) : List FsTree :=
  match n with
  | 0 => []
  | k + 1 => .file "doc" :: mkFiles k

/-! ## CredentialVerifier (src/server/src/utils/index.js)

safeCompare builds Buffers from both strings; on a length mismatch it
still runs crypto.timingSafeEqual(bufA, Buffer.alloc(bufA.length))
before returning false, and on matching lengths it returns
crypto.timingSafeEqual(bufA, bufB).  The model returns the boolean
outcome together with the comparison cost: the number of bytes fed to
the constant-time primitive (strings are taken as single-byte
characters, matching the ASCII credentials the server compares). -/

/-- Model of safeCompare: result and the byte count handed to
crypto.timingSafeEqual on the taken path. -/
def safeCompare (a b : String) : Bool × Nat :=
  if a.length ≠ b.length then (false, a.length)
  else (decide (a = b), a.length)

/-- Split a character list at every occurrence of sep (model of the
JavaScript String.split). -/
def splitOnChar (sep : Char) : List Char → List (List Char)
  | [] => [[]]
  | c :: rest =>
    let r := splitOnChar sep rest
    if c = sep then [] :: r
    else
      match r with
      | [] => [[c]]
      | h :: t => (c :: h) :: t

/-- Model of verifyPassword: for a stored secret of the form
scrypt:salt:digest, derive the digest of the supplied password via
the scrypt collaborator (a parameter of the model; its running cost
is fixed by the scrypt work parameters, not by either input value)
and compare constant-time; otherwise fall back to the deprecated
plaintext path and compare the supplied password against the stored
plaintext constant-time.  Returns the boolean outcome and the
comparison cost of the taken path. -/
def verifyPassword (scryptHex : String → String → String)
    (password storedHash : String) : Bool × Nat :=
  if strStartsWith "scrypt:" storedHash then
    let parts := (splitOnChar ':' storedHash.data).map (fun l => (⟨l⟩ : String))
    let salt := parts.getD 1 ""
    let hash := parts.getD 2 ""
    safeCompare (scryptHex password salt) hash
  else
    safeCompare password storedHash

/-! ## ShareRegistry (src/server/src/routes/shares.js)

The in-memory share map, its verify endpoint, the bearer-token check
used by the content and download endpoints, the expiry sweep, and the
lexical sub-path confinement of directory shares.  Access codes are
compared as Buffers after toUpperCase, so they are modelled as lists
of byte values. -/

/-- Uppercase one byte the way toUpperCase acts on ASCII. -/
def jsToUpperByte (n : Nat) : Nat :=
  if 97 ≤ n ∧ n ≤ 122 then n - 32 else n

/-- Lowercase one byte the way toLowerCase acts on ASCII. -/
def jsToLowerByte (n : Nat) : Nat :=
  if 65 ≤ n ∧ n ≤ 90 then n + 32 else n

/-- The byte values of the access-code alphabet
"ABCDEFGHJKLMNPQRSTUVWXYZ23456789" of generateAccessCode. -/
def accessCodeChars : List Nat :=
  [65, 66, 67, 68, 69, 70, 71, 72, 74, 75, 76, 77, 78, 80, 81, 82,
   83, 84, 85, 86, 87, 88, 89, 90, 50, 51, 52, 53, 54, 55, 56, 57]

/-- Model of generateAccessCode: six characters drawn from the
alphabet, the random draws abstracted as a function giving the index
picked at each of the six positions. -/
def generateAccessCode (rand : Fin 6 → Nat) : List Nat :=
  (List.finRange 6).map
    (fun i => accessCodeChars.getD (rand i % accessCodeChars.length) 0)

/-- A stored share record (the fields of the object built by
POST /api/shares). -/
structure ShareRecord where
  id : String
  accessCode : List Nat
  path : String
  resolvedPath : List String
  isDirectory : Bool
  name : String
  createdAt : Nat
  expiresAt : Nat
  accessTokens : List String
  accessCount : Nat
deriving DecidableEq, Repr

/-- shares.get(shareId) on the share map, modelled as an association
list keyed by id. -/
def sharesGet (m : List ShareRecord) (shareId : String) :
    Option ShareRecord :=
  m.find? (fun s => s.id == shareId)

/-- shares.delete(shareId). -/
def sharesDelete (m : List ShareRecord) (shareId : String) :
    List ShareRecord :=
  m.filter (fun s => !(s.id == shareId))

/-- The in-place mutation done by a successful verify: add the
freshly minted bearer token to the record's token set and increment
its access count. -/
def addToken (m : List ShareRecord) (shareId tok : String) :
    List ShareRecord :=
  m.map (fun s =>
    if s.id == shareId then
      { s with accessTokens := s.accessTokens ++ [tok],
               accessCount := s.accessCount + 1 }
    else s)

/-- Outcome of GET /api/shares/:shareId/verify. -/
inductive VerifyOutcome where
  | badRequest (body : String)
  | notFound (body : String)
  | forbidden (body : String)
  | ok (accessToken : String)
deriving DecidableEq, Repr

/-- Model of the verify handler: require a code, look the share up,
lazily evict and 404 an expired record, compare the upper-cased
supplied code against the stored code (length check then byte
equality, as the Buffer comparison does), then mint the bearer token
and record it; the final stat on the resolved path is modelled by the
statOk flag of the filesystem at call time. -/
def verifyShare (m : List ShareRecord) (shareId : String)
    (code : Option (List Nat)) (now : Nat) (newToken : String)
    (statOk : Bool) : VerifyOutcome × List ShareRecord :=
  match code with
  | none => (.badRequest "Access code is required.", m)
  | some c =>
    match sharesGet m shareId with
    | none => (.notFound "Share not found or expired.", m)
    | some share =>
      if share.expiresAt < now then
        (.notFound "Share has expired.", sharesDelete m shareId)
      else
        let up := c.map jsToUpperByte
        if up.length ≠ share.accessCode.length ∨ up ≠ share.accessCode then
          (.forbidden "Invalid access code.", m)
        else
          let m2 := addToken m shareId newToken
          if statOk then (.ok newToken, m2)
          else (.notFound "Shared content no longer exists.", m2)

/-- Outcome of the verifyShareAccess middleware guarding the content
and download endpoints. -/
inductive AccessCheck where
  | unauthorized (body : String)
  | notFound (body : String)
  | forbidden (body : String)
  | ok (share : ShareRecord)
deriving DecidableEq, Repr

/-- Model of verifyShareAccess: require the x-share-token header,
look the share up, lazily evict and 404 an expired record, and demand
that the token is in the record's token set. -/
def verifyShareAccess (m : List ShareRecord) (shareId : String)
    (token : Option String) (now : Nat) : AccessCheck × List ShareRecord :=
  match token with
  | none => (.unauthorized "Share access token required.", m)
  | some tok =>
    match sharesGet m shareId with
    | none => (.notFound "Share not found or expired.", m)
    | some share =>
      if share.expiresAt < now then
        (.notFound "Share has expired.", sharesDelete m shareId)
      else if !(share.accessTokens.contains tok) then
        (.forbidden "Invalid share access token.", m)
      else (.ok share, m)

/-- Model of cleanupExpiredShares: drop every record whose expiresAt
has passed. -/
def cleanupExpiredShares (m : List ShareRecord) (now : Nat) :
    List ShareRecord :=
  m.filter (fun s => !(decide (s.expiresAt < now)))

/-- The sub-path resolution of the content and download handlers for
a share: for a directory share, normalize the supplied sub-path,
reject it when the normalized string starts with "..", join it onto
the share's resolved root, and re-check that the joined string starts
with the resolved root string; for a file share the target is the
resolved path itself.  All checks are string-level, exactly as in the
source — no realpath canonicalization is performed here. -/
def shareTargetPath (shareRoot : List String) (isDirectory : Bool)
    (subPath : JsPath) : Except String (List String) :=
  if isDirectory then
    let norm : JsPath := ⟨subPath.abs, normalizeComps subPath.abs subPath.comps⟩
    let rendered := if norm.abs then renderAbs norm.comps else renderRel norm.comps
    if strStartsWith ".." rendered then
      .error "Cannot access paths outside shared directory."
    else
      let target := normalizeComps true (shareRoot ++ norm.comps)
      if strStartsWith (renderAbs shareRoot) (renderAbs target) then .ok target
      else .error "Cannot access paths outside shared directory."
  else .ok shareRoot

/-- The canonical path actually read by the content or download
handler: the filesystem resolves every symlink in the lexical target
when fsp.stat, fsp.readFile or createReadStream opens it; the
canonicalization behaviour of the filesystem is a parameter. -/
def shareContentReadPath (canonical : List String → List String)
    (shareRoot : List String) (isDirectory : Bool) (subPath : JsPath) :
    Except String (List String) :=
  (shareTargetPath shareRoot isDirectory subPath).map canonical

/-! ## Claim C1 and C2: the path sandbox root check

The startsWith root check of resolveSafePath (and the identical check
applied to the real path in resolveSafePathWithSymlinkCheck) compares
plain strings with no separator after the root, so a sibling of the
root whose name extends the root name string-wise passes it. -/

/-- C1: the claim that resolveSafePath either yields the root or a
descendant of it or fails with the OutsideRoot error is violated by
the code: with root /data, the input ../datax resolves to /datax,
which passes the startsWith check and is returned even though it is
outside the root (the function's own doc comment says it throws in
that case); a traversal that does not share the root name stem, such
as ../../etc/passwd, is rejected as documented. -/
theorem c1_resolveSafePath_sibling_escape :
    resolveSafePath ["data"] ⟨false, ["..", "datax"]⟩ = .ok ["datax"] ∧
    isUnderRoot ["data"] ["datax"] = false ∧
    resolveSafePath ["data"] ⟨false, ["..", "..", "etc", "passwd"]⟩ =
      .error "Path escapes the configured root directory." := by
  decide

/-- C2: the claim that a canonical (symlink-resolved) real path lying
outside the root always makes resolveSafePathWithSymlinkCheck fail
with the OutsideRoot error is violated by the code: a symlink
/data/link retargeted to /datax/secret has a real path outside the
root, yet the string check accepts it because /datax/secret starts
with the string /data, and the real path is returned; the same
symlink retargeted to /secret/x is caught as documented. -/
theorem c2_symlink_check_sibling_escape :
    resolveSafePathWithSymlinkCheck ["data"] ⟨false, ["link"]⟩
        (fun p => if p = ["data", "link"] then .found ["datax", "secret"]
                  else .enoent) =
      .ok ["datax", "secret"] ∧
    isUnderRoot ["data"] ["datax", "secret"] = false ∧
    resolveSafePathWithSymlinkCheck ["data"] ⟨false, ["link"]⟩
        (fun p => if p = ["data", "link"] then .found ["secret", "x"]
                  else .enoent) =
      .error "Path escapes the configured root directory via symlink." := by
  decide

/-! ## Claim C3: global session invalidation -/

/-- C3: bumping the global session version (once or more) makes every
previously issued token fail with the session-invalidated rejection
on every later use, even when its signature is valid and its expiry
has not elapsed; and a request is allowed with an authenticated user
only when the token's embedded version equals the current one. -/
theorem c3_invalidateAll_stale_tokens_fail :
    (∀ v n : Nat, 1 ≤ n → v < iterInvalidateAll n v) ∧
    (∀ (secret username method reqPath : String) (v vNow now ttl t : Nat),
      v < vNow → t < now + ttl →
      method ≠ "OPTIONS" →
      isPublicAuthPath reqPath = false → isPublicSharePath reqPath = false →
      requireAuth true secret vNow method reqPath
          (some (loginToken secret username v now ttl)) t =
        .deny 401 "Session has been invalidated.") ∧
    (∀ (authRequired : Bool) (secret method reqPath : String)
       (vNow t : Nat) (tok : SignedToken) (payload : TokenPayload),
      requireAuth authRequired secret vNow method reqPath (some tok) t =
        .allow (some payload) →
      payload.sessionVersion = vNow) := by
  refine ⟨?_, ?_, ?_⟩
  · intro v n hn
    have h : ∀ k v0 : Nat, iterInvalidateAll k v0 = v0 + k := by
      intro k v0
      induction k with
      | zero => rfl
      | succ j ih =>
        simp only [iterInvalidateAll, incrementSessionVersion, ih]
        omega
    rw [h]; omega
  · intro secret username method reqPath v vNow now ttl t hv ht hm hp1 hp2
    have hver : jwtVerify secret (loginToken secret username v now ttl) t =
        some ⟨username, v⟩ := by
      simp [jwtVerify, loginToken, jwtSign, ht]
    simp [requireAuth, hm, hp1, hp2, hver, Nat.ne_of_lt hv]
  · intro authRequired secret method reqPath vNow t tok payload h
    unfold requireAuth at h
    repeat' split at h
    all_goals simp_all

/-- Witness for C3 at concrete inputs. -/
theorem c3_witness :
    (1 : Nat) < iterInvalidateAll 1 1 ∧
    requireAuth true "s" 2 "GET" "/entries"
        (some (loginToken "s" "admin" 1 0 3600)) 10 =
      .deny 401 "Session has been invalidated." :=
  ⟨c3_invalidateAll_stale_tokens_fail.1 1 1 (by decide),
   c3_invalidateAll_stale_tokens_fail.2.1 "s" "admin" "GET" "/entries"
     1 2 0 3600 10 (by decide) (by decide) (by decide) (by decide) (by decide)⟩

/-! ## Claim C4: failure responses of requireAuth -/

/-- C4 counterexample: the claim that the response body does not
distinguish between authentication failure reasons is violated by the
code: a token that is only stale (valid signature, unexpired, old
session version) is rejected with the body
"Session has been invalidated.", while a forged token is rejected
with the different body "Invalid or expired token.", and a missing
token with a third body — the failure reasons are distinguishable
from the response body alone. -/
theorem c4_bodies_distinguish_reasons :
    requireAuth true "sec" 2 "GET" "/entries"
        (some (jwtSign "sec" ⟨"u", 1⟩ 0 100)) 0 =
      .deny 401 "Session has been invalidated." ∧
    requireAuth true "sec" 2 "GET" "/entries"
        (some (jwtSign "bad" ⟨"u", 2⟩ 0 100)) 0 =
      .deny 401 "Invalid or expired token." ∧
    requireAuth true "sec" 2 "GET" "/entries" none 0 =
      .deny 401 "Authentication required." ∧
    ("Session has been invalidated." ≠ "Invalid or expired token." ∧
     "Session has been invalidated." ≠ "Authentication required.") := by
  decide

/-- C4 amended: every failing authentication attempt is rejected with
status 401, and a forged token and an expired token do get one shared
body ("Invalid or expired token."); but a missing token and a
stale-session-version token each get their own distinct body, so the
response body does distinguish those failure reasons (requireAuth
performs no audit logging of its own). -/
theorem c4_amended_all_401_forged_expired_share_body :
    (∀ (authRequired : Bool) (secret method reqPath : String)
       (vNow t s : Nat) (tok : Option SignedToken) (b : String),
      requireAuth authRequired secret vNow method reqPath tok t =
        .deny s b → s = 401) ∧
    (∀ (secret method reqPath : String) (vNow t : Nat)
       (forged expired : SignedToken),
      forged.sig ≠ secret → expired.sig = secret → expired.exp ≤ t →
      method ≠ "OPTIONS" →
      isPublicAuthPath reqPath = false → isPublicSharePath reqPath = false →
      requireAuth true secret vNow method reqPath (some forged) t =
        .deny 401 "Invalid or expired token." ∧
      requireAuth true secret vNow method reqPath (some expired) t =
        .deny 401 "Invalid or expired token.") := by
  constructor
  · intro authRequired secret method reqPath vNow t s tok b h
    unfold requireAuth at h
    repeat' split at h
    all_goals simp_all
  · intro secret method reqPath vNow t forged expired hf he1 he2 hm hp1 hp2
    have hvf : jwtVerify secret forged t = none := by
      simp [jwtVerify]
      intro h
      exact absurd h hf
    have hve : jwtVerify secret expired t = none := by
      simp [jwtVerify]
      omega
    constructor <;> simp [requireAuth, hm, hp1, hp2, hvf, hve]

/-- Witness for the C4 amended theorem at concrete inputs. -/
theorem c4_amended_witness :
    (401 : Nat) = 401 ∧
    requireAuth true "sec" 1 "GET" "/entries"
        (some ⟨⟨"u", 1⟩, 100, "bad"⟩) 7 =
      .deny 401 "Invalid or expired token." ∧
    requireAuth true "sec" 1 "GET" "/entries"
        (some ⟨⟨"u", 1⟩, 5, "sec"⟩) 7 =
      .deny 401 "Invalid or expired token." :=
  ⟨c4_amended_all_401_forged_expired_share_body.1 true "sec" "GET" "/entries"
      1 0 401 none "Authentication required." (by decide),
   c4_amended_all_401_forged_expired_share_body.2 "sec" "GET" "/entries" 1 7
      ⟨⟨"u", 1⟩, 100, "bad"⟩ ⟨⟨"u", 1⟩, 5, "sec"⟩
      (by decide) (by decide) (by decide) (by decide) (by decide) (by decide)⟩

/-! ## Claim C6: share expiry -/

/-- Looking a share id up after deleting it finds nothing. -/
theorem sharesGet_sharesDelete (m : List ShareRecord) (shareId : String) :
    sharesGet (sharesDelete m shareId) shareId = none := by
  simp only [sharesGet, sharesDelete, List.find?_eq_none]
  intro s hs
  rcases List.mem_filter.mp hs with ⟨-, hkeep⟩
  simpa using hkeep

/-- C6: once a share's expiresAt lies before the current time, both
the code-based verify endpoint (even with the correct code) and the
token-based access check reply with the not-found rejection and evict
the record on that lookup, at that instant and at every later one;
and the periodic sweep removes exactly the expired records. -/
theorem c6_expired_share_never_readable :
    (∀ (m : List ShareRecord) (shareId : String) (s : ShareRecord)
       (now now2 : Nat) (code : List Nat) (tok newTok : String)
       (statOk : Bool),
      sharesGet m shareId = some s → s.expiresAt < now → now ≤ now2 →
      (verifyShare m shareId (some code) now2 newTok statOk).1 =
        .notFound "Share has expired." ∧
      sharesGet (verifyShare m shareId (some code) now2 newTok statOk).2
        shareId = none ∧
      (verifyShareAccess m shareId (some tok) now2).1 =
        .notFound "Share has expired." ∧
      sharesGet (verifyShareAccess m shareId (some tok) now2).2
        shareId = none) ∧
    (∀ (m : List ShareRecord) (now : Nat) (s : ShareRecord),
      s ∈ cleanupExpiredShares m now ↔ s ∈ m ∧ ¬ s.expiresAt < now) := by
  constructor
  · intro m shareId s now now2 code tok newTok statOk hget hexp hle
    have hexp2 : s.expiresAt < now2 := by omega
    refine ⟨?_, ?_, ?_, ?_⟩ <;>
      simp [verifyShare, verifyShareAccess, hget, hexp2, sharesGet_sharesDelete]
  · intro m now s
    simp [cleanupExpiredShares, List.mem_filter]

/-- Witness for C6 at a concrete store. -/
theorem c6_witness :
    (verifyShare
        [⟨"id1", [65, 66, 67, 68, 69, 70], "docs", ["data", "docs"], true,
          "docs", 0, 10, [], 0⟩]
        "id1" (some [65, 66, 67, 68, 69, 70]) 11 "tok" true).1 =
      .notFound "Share has expired." ∧
    (⟨"id1", [65, 66, 67, 68, 69, 70], "docs", ["data", "docs"], true,
       "docs", 0, 10, [], 0⟩ : ShareRecord) ∈
      cleanupExpiredShares
        [⟨"id1", [65, 66, 67, 68, 69, 70], "docs", ["data", "docs"], true,
          "docs", 0, 10, [], 0⟩] 5 :=
  ⟨(c6_expired_share_never_readable.1
      [⟨"id1", [65, 66, 67, 68, 69, 70], "docs", ["data", "docs"], true,
        "docs", 0, 10, [], 0⟩]
      "id1" ⟨"id1", [65, 66, 67, 68, 69, 70], "docs", ["data", "docs"], true,
        "docs", 0, 10, [], 0⟩ 11 11 [65, 66, 67, 68, 69, 70] "tok" "tok" true
      (by decide) (by decide) (by decide)).1,
   (c6_expired_share_never_readable.2
      [⟨"id1", [65, 66, 67, 68, 69, 70], "docs", ["data", "docs"], true,
        "docs", 0, 10, [], 0⟩] 5
      ⟨"id1", [65, 66, 67, 68, 69, 70], "docs", ["data", "docs"], true,
        "docs", 0, 10, [], 0⟩).mpr ⟨by decide, by decide⟩⟩

/-! ## Claim C9: constant-time credential comparison -/

/-- C9 counterexample: under the cost model in which the constant-time
primitive costs the number of bytes it compares, the claim that a
correct-length-wrong-value password and a wrong-length password are
indistinguishable by response time fails on the plaintext fallback
path: against the stored plaintext secret "abcdef", the supplied
password "abcdeX" (correct length, wrong value) costs 6 byte
comparisons while "ab" (wrong length) costs 2 — the cost tracks the
supplied length, not the expected secret length. -/
theorem c9_cost_tracks_supplied_length :
    (verifyPassword (fun _ _ => "") "abcdeX" "abcdef").1 = false ∧
    (verifyPassword (fun _ _ => "") "ab" "abcdef").1 = false ∧
    (verifyPassword (fun _ _ => "") "abcdeX" "abcdef").2 = 6 ∧
    (verifyPassword (fun _ _ => "") "ab" "abcdef").2 = 2 ∧
    (verifyPassword (fun _ _ => "") "abcdeX" "abcdef").2 ≠
      (verifyPassword (fun _ _ => "") "ab" "abcdef").2 := by
  decide

/-- C9 amended: the comparison cost of safeCompare equals the
supplied buffer's length on every path, so a dummy comparison of the
same cost as the equal-length comparison is indeed performed on a
length mismatch (no short-circuit) and false is still returned; the
cost of verifyPassword never depends on the stored secret (plaintext
path) nor on the supplied password (scrypt path, whose derived digest
has the fixed scrypt output length) — but it is proportional to the
supplied input's length on the plaintext path, not constant in the
expected secret's length. -/
theorem c9_amended_cost_model :
    (∀ a b : String, (safeCompare a b).2 = a.length) ∧
    (∀ a b : String, a.length ≠ b.length →
      (safeCompare a b).1 = false ∧ (safeCompare a b).2 = (safeCompare a a).2) ∧
    (∀ (f : String → String → String) (pw s1 s2 : String),
      strStartsWith "scrypt:" s1 = false → strStartsWith "scrypt:" s2 = false →
      (verifyPassword f pw s1).2 = (verifyPassword f pw s2).2) ∧
    (∀ (f : String → String → String) (pw1 pw2 stored : String),
      strStartsWith "scrypt:" stored = true →
      (∀ p s, (f p s).length = 128) →
      (verifyPassword f pw1 stored).2 = (verifyPassword f pw2 stored).2) := by
  refine ⟨?_, ?_, ?_, ?_⟩
  · intro a b
    unfold safeCompare
    split <;> rfl
  · intro a b h
    unfold safeCompare
    rw [if_pos h]
    exact ⟨rfl, by rw [if_neg (by simp)]⟩
  · intro f pw s1 s2 h1 h2
    simp only [verifyPassword, h1, h2, Bool.false_eq_true, if_false]
    unfold safeCompare
    split <;> split <;> rfl
  · intro f pw1 pw2 stored hs hf
    simp only [verifyPassword, hs, if_true]
    unfold safeCompare
    split <;> split <;> simp [hf]

/-- Witness for the C9 amended theorem at concrete inputs. -/
theorem c9_amended_witness :
    (safeCompare "abc" "xyzw").1 = false ∧
    (safeCompare "abc" "xyzw").2 = (safeCompare "abc" "abc").2 ∧
    (verifyPassword (fun _ _ => "") "pw" "secretA").2 =
      (verifyPassword (fun _ _ => "") "pw" "otherBCD").2 :=
  ⟨(c9_amended_cost_model.2.1 "abc" "xyzw" (by decide)).1,
   (c9_amended_cost_model.2.1 "abc" "xyzw" (by decide)).2,
   c9_amended_cost_model.2.2.1 (fun _ _ => "") "pw" "secretA" "otherBCD"
     (by decide) (by decide)⟩

/-! ## Claim C10: case-insensitive access codes -/

/-- s is a case variant of code: same length, and each character is
either the code character itself or its lowercase form. -/
def isCaseVariant : List Nat → List Nat → Bool
  | [], [] => true
  | s :: ss, c :: cs =>
    (s == c || s == jsToLowerByte c) && isCaseVariant ss cs
  | _, _ => false

/-- The byte-value list accessCodeChars spells the source alphabet
"ABCDEFGHJKLMNPQRSTUVWXYZ23456789". -/
theorem accessCodeChars_spelling :
    accessCodeChars = "ABCDEFGHJKLMNPQRSTUVWXYZ23456789".data.map Char.toNat := by
  decide

/-- Every alphabet byte is an uppercase letter or a digit. -/
theorem accessCodeChars_bounds :
    ∀ c ∈ accessCodeChars, (65 ≤ c ∧ c ≤ 90) ∨ (50 ≤ c ∧ c ≤ 57) := by
  decide

/-- For a byte in the uppercase-letter or digit range, upper-casing a
supplied byte hits it exactly when the supplied byte is the code byte
itself or its lowercase form. -/
theorem jsToUpperByte_eq_iff (c x : Nat)
    (hc : (65 ≤ c ∧ c ≤ 90) ∨ (50 ≤ c ∧ c ≤ 57)) :
    jsToUpperByte x = c ↔ (x = c ∨ x = jsToLowerByte c) := by
  unfold jsToUpperByte jsToLowerByte
  split_ifs <;> omega

/-- Upper-casing a supplied byte string yields an alphabet-valued
code exactly when the supplied string is a case variant of it. -/
theorem mapUpper_eq_iff_isCaseVariant (s code : List Nat)
    (hcode : ∀ c ∈ code, c ∈ accessCodeChars) :
    s.map jsToUpperByte = code ↔ isCaseVariant s code = true := by
  induction s generalizing code with
  | nil =>
    cases code with
    | nil => simp [isCaseVariant]
    | cons c cs => simp [isCaseVariant]
  | cons x xs ih =>
    cases code with
    | nil => simp [isCaseVariant]
    | cons c cs =>
      have hc := accessCodeChars_bounds c (hcode c (by simp))
      have hrest : ∀ d ∈ cs, d ∈ accessCodeChars := by
        intro d hd; exact hcode d (by simp [hd])
      simp only [List.map_cons, List.cons.injEq, isCaseVariant,
        Bool.and_eq_true, Bool.or_eq_true, beq_iff_eq]
      rw [ih cs hrest, jsToUpperByte_eq_iff c x hc]

/-- C10: generated access codes are six characters long and drawn
only from the uppercase-and-digits alphabet, which excludes the
confusable characters 0, O, 1 and I; and for a live share whose
stored code is drawn from that alphabet, the verify endpoint succeeds
on a supplied code exactly when it is a case variant of the stored
code — any case variant works and no other string does. -/
theorem c10_verify_case_insensitive :
    (∀ rand : Fin 6 → Nat,
      (generateAccessCode rand).length = 6 ∧
      ∀ c ∈ generateAccessCode rand, c ∈ accessCodeChars) ∧
    (48 ∉ accessCodeChars ∧ 79 ∉ accessCodeChars ∧
     49 ∉ accessCodeChars ∧ 73 ∉ accessCodeChars) ∧
    (∀ (m : List ShareRecord) (shareId : String) (share : ShareRecord)
       (now : Nat) (newTok : String) (s : List Nat),
      sharesGet m shareId = some share → ¬ share.expiresAt < now →
      (∀ c ∈ share.accessCode, c ∈ accessCodeChars) →
      ((verifyShare m shareId (some s) now newTok true).1 = .ok newTok ↔
        isCaseVariant s share.accessCode = true)) := by
  refine ⟨?_, by decide, ?_⟩
  · intro rand
    constructor
    · simp [generateAccessCode]
    · intro c hc
      simp only [generateAccessCode, List.mem_map] at hc
      obtain ⟨i, -, hi⟩ := hc
      have hlen : accessCodeChars.length = 32 := by decide
      have hlt : rand i % accessCodeChars.length < accessCodeChars.length := by
        rw [hlen]; exact Nat.mod_lt _ (by omega)
      rw [← hi, List.getD_eq_getElem accessCodeChars 0 hlt]
      exact List.getElem_mem hlt
  · intro m shareId share now newTok s hget hexp hcode
    have hiff := mapUpper_eq_iff_isCaseVariant s share.accessCode hcode
    simp only [verifyShare, hget, if_neg hexp]
    by_cases heq : s.map jsToUpperByte = share.accessCode
    · rw [if_neg]
      · simp [hiff.mp heq]
      · push_neg
        exact ⟨by rw [heq], heq⟩
    · rw [if_pos (Or.inr heq)]
      simp only [VerifyOutcome.forbidden.injEq]
      constructor
      · intro h; exact absurd h (by simp)
      · intro h; exact absurd (hiff.mpr h) heq

/-- Witness for C10 at a concrete share: the lowercase form of the
stored code ABC234 verifies, and the length-6 alphabet guarantee
holds for a concrete random draw. -/
theorem c10_witness :
    ((verifyShare
        [⟨"id1", [65, 66, 67, 50, 51, 52], "f.txt", ["data", "f.txt"], false,
          "f.txt", 0, 100, [], 0⟩]
        "id1" (some [97, 98, 99, 50, 51, 52]) 5 "tok" true).1 =
      .ok "tok" ↔
      isCaseVariant [97, 98, 99, 50, 51, 52] [65, 66, 67, 50, 51, 52] = true) ∧
    (generateAccessCode (fun _ => 7)).length = 6 :=
  ⟨c10_verify_case_insensitive.2.2
      [⟨"id1", [65, 66, 67, 50, 51, 52], "f.txt", ["data", "f.txt"], false,
        "f.txt", 0, 100, [], 0⟩]
      "id1" ⟨"id1", [65, 66, 67, 50, 51, 52], "f.txt", ["data", "f.txt"], false,
        "f.txt", 0, 100, [], 0⟩ 5 "tok" [97, 98, 99, 50, 51, 52]
      (by decide) (by decide) (by decide),
   (c10_verify_case_insensitive.1 (fun _ => 7)).1⟩

/-! ## Claim C5: confinement of directory-share sub-paths -/

/-- A path component that normalization keeps verbatim: not empty,
not ".", not "..". -/
def cleanComp (c : String) : Prop :=
  c ≠ "" ∧ c ≠ "." ∧ c ≠ ".."

/-- Folding a run of clean components just pushes them. -/
theorem foldl_normStep_clean_push (abs : Bool) (rest : List String) :
    ∀ acc : List String, (∀ c ∈ rest, cleanComp c) →
    rest.foldl (normStep abs) acc = rest.reverse ++ acc := by
  induction rest with
  | nil => intro acc h; simp
  | cons c t ih =>
    intro acc h
    have hc : cleanComp c := h c (by simp)
    have hstep : normStep abs acc c = c :: acc := by
      unfold normStep
      rw [if_neg (by rcases hc with ⟨h1, h2, h3⟩; simp [h1, h2]), if_neg hc.2.2]
    simp only [List.foldl_cons, hstep]
    rw [ih (c :: acc) (fun d hd => h d (by simp [hd]))]
    simp

/-- Normalizing against an absolute base keeps every surviving
component clean: "." and "" vanish and ".." only pops. -/
theorem foldl_normStep_true_clean (cs : List String) :
    ∀ acc : List String, (∀ c ∈ acc, cleanComp c) →
    ∀ c ∈ cs.foldl (normStep true) acc, cleanComp c := by
  induction cs with
  | nil => intro acc h; simpa using h
  | cons c t ih =>
    intro acc h
    refine ih (normStep true acc c) ?_
    intro d hd
    unfold normStep at hd
    by_cases h1 : c = "" ∨ c = "."
    · rw [if_pos h1] at hd; exact h d hd
    · rw [if_neg h1] at hd
      by_cases h2 : c = ".."
      · rw [if_pos h2] at hd
        cases acc with
        | nil => simp at hd
        | cons top rest =>
          have htop : cleanComp top := h top (by simp)
          simp only [htop.2.2, if_false] at hd
          exact h d (by simp [hd])
      · rw [if_neg h2] at hd
        rcases List.mem_cons.mp hd with hdc | hdacc
        · subst hdc
          exact ⟨by intro hx; exact h1 (Or.inl hx),
                 by intro hx; exact h1 (Or.inr hx), h2⟩
        · exact h d hdacc

/-- Relative normalization keeps the accumulator in the shape
(clean components, then a trailing run of ".." entries). -/
theorem foldl_normStep_false_structure (cs : List String) :
    ∀ (r : List String) (k : Nat), (∀ c ∈ r, cleanComp c) →
    ∃ (r2 : List String) (k2 : Nat),
      cs.foldl (normStep false) (r ++ List.replicate k "..") =
        r2 ++ List.replicate k2 ".." ∧ ∀ c ∈ r2, cleanComp c := by
  induction cs with
  | nil => intro r k h; exact ⟨r, k, rfl, h⟩
  | cons c t ih =>
    intro r k h
    simp only [List.foldl_cons]
    by_cases h1 : c = "" ∨ c = "."
    · have hstep : normStep false (r ++ List.replicate k "..") c =
          r ++ List.replicate k ".." := by
        unfold normStep; rw [if_pos h1]
      rw [hstep]; exact ih r k h
    · by_cases h2 : c = ".."
      · cases r with
        | nil =>
          cases k with
          | zero =>
            have hstep : normStep false ([] ++ List.replicate 0 "..") c =
                [] ++ List.replicate 1 ".." := by
              unfold normStep
              rw [if_neg h1, if_pos h2]
              rfl
            rw [hstep]
            exact ih [] 1 (by intro d hd; simp at hd)
          | succ j =>
            have hstep : normStep false ([] ++ List.replicate (j + 1) "..") c =
                [] ++ List.replicate (j + 2) ".." := by
              unfold normStep
              rw [if_neg h1, if_pos h2]
              rfl
            rw [hstep]
            exact ih [] (j + 2) (by intro d hd; simp at hd)
        | cons top rrest =>
          have htop : cleanComp top := h top (by simp)
          have hstep : normStep false ((top :: rrest) ++ List.replicate k "..") c =
              rrest ++ List.replicate k ".." := by
            unfold normStep
            rw [if_neg h1, if_pos h2]
            show (if top = ".." then _ else _) = _
            rw [if_neg htop.2.2]
            rfl
          rw [hstep]
          exact ih rrest k (fun d hd => h d (by simp [hd]))
      · have hstep : normStep false (r ++ List.replicate k "..") c =
            (c :: r) ++ List.replicate k ".." := by
          unfold normStep; rw [if_neg h1, if_neg h2]; rfl
        rw [hstep]
        refine ih (c :: r) k ?_
        intro d hd
        rcases List.mem_cons.mp hd with hdc | hdr
        · subst hdc
          exact ⟨by intro hx; exact h1 (Or.inl hx),
                 by intro hx; exact h1 (Or.inr hx), h2⟩
        · exact h d hdr

/-- A relative normalized path is a leading run of ".." entries
followed by clean components. -/
theorem normalizeComps_false_structure (cs : List String) :
    ∃ (r : List String) (k : Nat),
      normalizeComps false cs = List.replicate k ".." ++ r ∧
      ∀ c ∈ r, cleanComp c := by
  obtain ⟨r2, k2, heq, hclean⟩ := foldl_normStep_false_structure cs [] 0 (by simp)
  refine ⟨r2.reverse, k2, ?_, ?_⟩
  · unfold normalizeComps
    rw [(by simp : cs.foldl (normStep false) [] =
          cs.foldl (normStep false) ([] ++ List.replicate 0 "..")), heq]
    simp [List.reverse_append, List.reverse_replicate]
  · intro c hc
    exact hclean c (List.mem_reverse.mp hc)

/-- An absolute normalized path has only clean components. -/
theorem normalizeComps_true_clean (cs : List String) :
    ∀ c ∈ normalizeComps true cs, cleanComp c := by
  intro c hc
  unfold normalizeComps at hc
  rw [List.mem_reverse] at hc
  exact foldl_normStep_true_clean cs [] (by simp) c hc

/-- Appending clean components to a base commutes with
normalization: they are simply appended. -/
theorem normalizeComps_true_append (root rest : List String)
    (h : ∀ c ∈ rest, cleanComp c) :
    normalizeComps true (root ++ rest) = normalizeComps true root ++ rest := by
  unfold normalizeComps
  rw [List.foldl_append, foldl_normStep_clean_push true rest _ h,
    List.reverse_append, List.reverse_reverse]

/-- A string starts with itself extended by anything. -/
theorem strStartsWith_append (s t : String) :
    strStartsWith s (s ++ t) = true := by
  unfold strStartsWith
  rw [String.data_append, List.isPrefixOf_iff_prefix]
  exact List.prefix_append _ _

/-- The rendering of a relative path with a leading ".." run starts
with the string "..". -/
theorem strStartsWith_ddot_renderRel (k : Nat) (r : List String)
    (hk : 1 ≤ k) :
    strStartsWith ".." (renderRel (List.replicate k ".." ++ r)) = true := by
  cases k with
  | zero => omega
  | succ j =>
    show strStartsWith ".."
      (renderRel (".." :: (List.replicate j ".." ++ r))) = true
    cases hx : List.replicate j ".." ++ r with
    | nil => decide
    | cons x t =>
      show strStartsWith ".." (joinComps (".." :: x :: t)) = true
      rw [joinComps, String.append_assoc]
      · exact strStartsWith_append ".." ("/" ++ joinComps (x :: t))
      · simp

/-- C5 counterexample: the claim that no access ever reads a
canonical path outside the resolved share root is violated by the
code: the sub-path checks are purely lexical, so for a directory
share of /data/docs containing a symlink "link" whose target is
/secret, the sub-path "link" passes both checks and the handler reads
the canonical path /secret, which is outside the share root;
the claim's own example "../secret" is rejected as stated. -/
theorem c5_symlink_reads_outside_share_root :
    shareTargetPath ["data", "docs"] true ⟨false, ["link"]⟩ =
      .ok ["data", "docs", "link"] ∧
    shareContentReadPath
        (fun p => if p = ["data", "docs", "link"] then ["secret"] else p)
        ["data", "docs"] true ⟨false, ["link"]⟩ = .ok ["secret"] ∧
    isUnderRoot ["data", "docs"] ["secret"] = false ∧
    shareTargetPath ["data", "docs"] true ⟨false, ["..", "secret"]⟩ =
      .error "Cannot access paths outside shared directory." := by
  decide

/-- C5 amended: the sub-path confinement of a directory share is
lexical and does hold at that level — the normalized sub-path
"../secret" is rejected with the share-scoped boundary error whatever
the share root is, and every accepted target is the share root or a
lexical descendant of it — but, unlike PathSandbox, the canonical
(symlink-resolved) path is never re-checked, so a symlink below the
share root can make the handler read content outside it. -/
theorem c5_amended_lexical_confinement :
    (∀ shareRoot : List String,
      shareTargetPath shareRoot true ⟨false, ["..", "secret"]⟩ =
        .error "Cannot access paths outside shared directory.") ∧
    (∀ (shareRoot : List String) (isDir : Bool) (subPath : JsPath)
       (t : List String),
      normalizeComps true shareRoot = shareRoot →
      shareTargetPath shareRoot isDir subPath = .ok t →
      isUnderRoot shareRoot t = true) := by
  constructor
  · intro shareRoot
    have h : strStartsWith ".."
        (renderRel (normalizeComps false ["..", "secret"])) = true := by
      decide
    simp [shareTargetPath, h]
  · intro shareRoot isDir subPath t hroot hok
    cases isDir with
    | false =>
      simp only [shareTargetPath, Bool.false_eq_true, if_false,
        Except.ok.injEq] at hok
      rw [← hok]
      unfold isUnderRoot
      rw [List.isPrefixOf_iff_prefix]
    | true =>
      simp only [shareTargetPath, if_true] at hok
      cases habs : subPath.abs with
      | true =>
        rw [habs] at hok
        simp only [if_true] at hok
        have hclean := normalizeComps_true_clean subPath.comps
        split at hok
        · exact absurd hok (by simp)
        · split at hok
          · have ht : t = normalizeComps true
                (shareRoot ++ normalizeComps true subPath.comps) := by
              simpa using hok.symm
            rw [ht, normalizeComps_true_append _ _ hclean, hroot]
            unfold isUnderRoot
            rw [List.isPrefixOf_iff_prefix]
            simp
          · exact absurd hok (by simp)
      | false =>
        rw [habs] at hok
        simp only [Bool.false_eq_true, if_false] at hok
        obtain ⟨r, k, hstruct, hclean⟩ :=
          normalizeComps_false_structure subPath.comps
        cases k with
        | succ j =>
          rw [hstruct] at hok
          rw [if_pos (strStartsWith_ddot_renderRel (j + 1) r (by omega))] at hok
          exact absurd hok (by simp)
        | zero =>
          rw [hstruct] at hok
          simp only [List.replicate_zero, List.nil_append] at hok hstruct
          split at hok
          · exact absurd hok (by simp)
          · split at hok
            · have ht : t = normalizeComps true (shareRoot ++ r) := by
                simpa using hok.symm
              rw [ht, normalizeComps_true_append _ _ hclean, hroot]
              unfold isUnderRoot
              rw [List.isPrefixOf_iff_prefix]
              simp
            · exact absurd hok (by simp)

/-- Witness for the C5 amended theorem at a concrete share root and
sub-path. -/
theorem c5_amended_witness :
    shareTargetPath ["data", "docs"] true ⟨false, ["..", "secret"]⟩ =
      .error "Cannot access paths outside shared directory." ∧
    isUnderRoot ["data", "docs"] ["data", "docs", "a", "b"] = true :=
  ⟨c5_amended_lexical_confinement.1 ["data", "docs"],
   c5_amended_lexical_confinement.2 ["data", "docs"] true
     ⟨false, ["a", ".", "b"]⟩ ["data", "docs", "a", "b"]
     (by decide) (by decide)⟩

/-! ## Claims C7 and C8: search clamping, stopping and truncation -/

/-- Induction principle for forests of FsTree, giving hypotheses for
both the children and the remaining siblings of a directory node. -/
theorem forestInd (motive : List FsTree → Prop) (hnil : motive [])
    (hfile : ∀ n rest, motive rest → motive (.file n :: rest))
    (hdir : ∀ n cs rest, motive cs → motive rest →
      motive (.dir n cs :: rest)) :
    ∀ l, motive l := by
  have key : ∀ (k : Nat) (l : List FsTree), sizeOf l ≤ k → motive l := by
    intro k
    induction k with
    | zero =>
      intro l hl
      cases l with
      | nil => exact hnil
      | cons t rest =>
        exfalso
        have h1 := List.cons.sizeOf_spec t rest
        omega
    | succ k ih =>
      intro l hl
      cases l with
      | nil => exact hnil
      | cons t rest =>
        cases t with
        | file n =>
          have h1 := List.cons.sizeOf_spec (FsTree.file n) rest
          exact hfile n rest (ih rest (by omega))
        | dir n cs =>
          have h1 := List.cons.sizeOf_spec (FsTree.dir n cs) rest
          have h2 : sizeOf (FsTree.dir n cs) = 1 + sizeOf n + sizeOf cs := by
            simp
          exact hdir n cs rest (ih cs (by omega)) (ih rest (by omega))
  intro l
  exact key (sizeOf l) l le_rfl

/-- Stopping on the result limit: at the entry of every recursive
searchDirectory call, a result set that has reached maxResults is
returned unchanged at once. -/
theorem searchDirectory_stop_limit (p : SearchParams) (q : String)
    (children : List FsTree) (st : SearchSt)
    (h : (st.results.length : Int) ≥ p.maxResults) :
    searchDirectory p q children st = st := by
  unfold searchDirectory
  rw [if_pos h]

/-- Stopping on the timeout: at the entry of every recursive
searchDirectory call, once the elapsed wall-clock time exceeds the
timeout the state is returned with timedOut set and no new results. -/
theorem searchDirectory_stop_timeout (p : SearchParams) (q : String)
    (children : List FsTree) (st : SearchSt)
    (h1 : ¬ (st.results.length : Int) ≥ p.maxResults)
    (h2 : p.clock st.tick - p.startTime > p.timeout) :
    searchDirectory p q children st = ⟨st.results, st.tick + 1, true⟩ := by
  unfold searchDirectory
  rw [if_neg h1]
  simp only [if_pos h2]

/-- When neither stopping condition fires at entry, searchDirectory
runs its file pass and then its directory pass. -/
theorem searchDirectory_go (p : SearchParams) (q : String)
    (children : List FsTree) (st : SearchSt)
    (h1 : ¬ (st.results.length : Int) ≥ p.maxResults)
    (h2 : ¬ p.clock st.tick - p.startTime > p.timeout) :
    searchDirectory p q children st =
      dirLoop p q children
        (fileLoop p q children ⟨st.results, st.tick + 1, st.timedOut⟩) := by
  unfold searchDirectory
  rw [if_neg h1]
  simp only [if_neg h2]

/-- The file pass never grows the result set beyond maxResults. -/
theorem fileLoop_len_inv (p : SearchParams) (q : String) (l : List FsTree) :
    ∀ st : SearchSt, st.results.length ≤ p.maxResults.toNat →
    (fileLoop p q l st).results.length ≤ p.maxResults.toNat := by
  induction l with
  | nil => intro st h; simpa [fileLoop] using h
  | cons t rest ih =>
    intro st h
    cases t with
    | dir name cs => rw [fileLoop]; exact ih st h
    | file name =>
      simp only [fileLoop]
      split
      · exact h
      · next hlim =>
        split
        · simpa using h
        · split
          · refine ih _ ?_
            simp only [List.length_append, List.length_cons, List.length_nil]
            omega
          · exact ih _ h

/-- The directory pass never grows the result set beyond
maxResults. -/
theorem dirLoop_len_inv (p : SearchParams) (q : String) :
    ∀ l : List FsTree, ∀ st : SearchSt,
    st.results.length ≤ p.maxResults.toNat →
    (dirLoop p q l st).results.length ≤ p.maxResults.toNat := by
  intro l
  induction l using forestInd with
  | hnil => intro st h; simpa [dirLoop] using h
  | hfile n rest ih => intro st h; rw [dirLoop]; exact ih st h
  | hdir n cs rest ihcs ihrest =>
    intro st h
    simp only [dirLoop]
    split
    · exact h
    · next hlim =>
      split
      · simpa using h
      · refine ihrest _ ?_
        repeat' split
        all_goals
          first
          | (simp only [List.length_append, List.length_cons,
               List.length_nil]
             omega)
          | (refine ihcs _ (fileLoop_len_inv p q cs _ ?_)
             simp only [List.length_append, List.length_cons,
               List.length_nil]
             omega)

/-- The whole traversal never grows the result set beyond
maxResults. -/
theorem searchDirectory_len_inv (p : SearchParams) (q : String)
    (children : List FsTree) (st : SearchSt)
    (h : st.results.length ≤ p.maxResults.toNat) :
    (searchDirectory p q children st).results.length ≤ p.maxResults.toNat := by
  by_cases h1 : (st.results.length : Int) ≥ p.maxResults
  · rw [searchDirectory_stop_limit p q children st h1]; exact h
  · by_cases h2 : p.clock st.tick - p.startTime > p.timeout
    · rw [searchDirectory_stop_timeout p q children st h1 h2]; exact h
    · rw [searchDirectory_go p q children st h1 h2]
      exact dirLoop_len_inv p q children _ (fileLoop_len_inv p q children _ h)

/-- Insertion keeps one more element. -/
theorem insertEntry_length (e : SEntry) (l : List SEntry) :
    (insertEntry e l).length = l.length + 1 := by
  induction l with
  | nil => rfl
  | cons x xs ih =>
    rw [insertEntry]
    split
    · rfl
    · simp [ih]

/-- The final sort keeps the number of collected results. -/
theorem sortEntries_length (l : List SEntry) :
    (sortEntries l).length = l.length := by
  induction l with
  | nil => rfl
  | cons x xs ih =>
    rw [sortEntries, insertEntry_length, ih]
    simp

/-- The directory pass does nothing on a flat all-files tree. -/
theorem dirLoop_mkFiles (p : SearchParams) (q : String) (n : Nat) :
    ∀ st : SearchSt, dirLoop p q (mkFiles n) st = st := by
  induction n with
  | zero => intro st; rw [mkFiles]; rw [dirLoop]
  | succ k ih => intro st; rw [mkFiles, dirLoop]; exact ih st

/-- C7 counterexample: the claim that the returned results list never
contains more than the clamped limit of entries fails for a negative
client-requested limit, which survives the Math.min clamp: with
limit=-1 the clamped limit is -1, the traversal stops at once and the
handler returns 0 results — more than the clamped limit of -1
(and reports truncated=true). -/
theorem c7_negative_limit_exceeds_clamped_limit :
    clampLimit (some (-1)) = -1 ∧
    searchHandler (fun _ => 0) [.file "doc"] (some "doc") (some (-1)) none =
      .ok [] true false ∧
    ¬ ((([] : List SEntry).length : Int) ≤ clampLimit (some (-1))) := by
  refine ⟨by decide, ?_, by decide⟩
  have hcl : clampLimit (some (-1)) = -1 := by decide
  have hct : clampTimeout none = 10000 := by decide
  have htrim : jsTrim "doc" = "doc" := by decide
  have h1 : searchDirectory ⟨fun _ => 0, 0, 10000, -1⟩ "doc"
      [FsTree.file "doc"] ⟨[], 1, false⟩ = ⟨[], 1, false⟩ :=
    searchDirectory_stop_limit _ _ _ _ (by decide)
  simp only [searchHandler, hcl, hct, htrim, h1]
  decide

/-- C7 amended: the clamps do bound the limit by 500 and the timeout
by 30000 whatever the client sends; both stopping conditions are
checked at the entry of every recursive searchDirectory call,
stopping at once on either; and a successful response never carries
more than max(clamped limit, 0) entries, reporting truncated exactly
when the result count reached the clamped limit — but for a negative
clamped limit the (empty) result list still exceeds it. -/
theorem c7_amended_clamps_and_stopping :
    (∀ lq tq : Option Int, clampLimit lq ≤ 500 ∧ clampTimeout tq ≤ 30000) ∧
    (∀ (p : SearchParams) (q : String) (children : List FsTree)
       (st : SearchSt),
      (st.results.length : Int) ≥ p.maxResults →
      searchDirectory p q children st = st) ∧
    (∀ (p : SearchParams) (q : String) (children : List FsTree)
       (st : SearchSt),
      ¬ (st.results.length : Int) ≥ p.maxResults →
      p.clock st.tick - p.startTime > p.timeout →
      searchDirectory p q children st = ⟨st.results, st.tick + 1, true⟩) ∧
    (∀ (clock : Nat → Int) (tree : List FsTree) (query : String)
       (lq tq : Option Int) (rs : List SEntry) (tr tout : Bool),
      searchHandler clock tree (some query) lq tq = .ok rs tr tout →
      rs.length ≤ (clampLimit lq).toNat ∧
      tr = decide ((rs.length : Int) ≥ clampLimit lq)) := by
  refine ⟨?_, searchDirectory_stop_limit, searchDirectory_stop_timeout, ?_⟩
  · intro lq tq
    exact ⟨min_le_right _ _, min_le_right _ _⟩
  · intro clock tree query lq tq rs tr tout hok
    simp only [searchHandler] at hok
    split at hok
    · exact absurd hok (by simp)
    · rw [SearchResp.ok.injEq] at hok
      obtain ⟨hrs, htr, -⟩ := hok
      have hlen : rs.length =
          (searchDirectory ⟨clock, clock 0, clampTimeout tq, clampLimit lq⟩
            (jsTrim query) tree ⟨[], 1, false⟩).results.length := by
        rw [← hrs, sortEntries_length]
      constructor
      · rw [hlen]
        exact searchDirectory_len_inv _ _ _ _ (by simp)
      · rw [← htr, hlen]

/-- Witness for the C7 amended theorem at concrete inputs. -/
theorem c7_amended_witness :
    clampLimit (some 100000) ≤ 500 ∧
    searchDirectory ⟨fun _ => 0, 0, 5, 0⟩ "doc" [.file "doc"] ⟨[], 1, false⟩ =
      ⟨[], 1, false⟩ ∧
    searchDirectory ⟨fun _ => 99, 0, 5, 10⟩ "doc" [.file "doc"] ⟨[], 1, false⟩ =
      ⟨[], 2, true⟩ ∧
    (List.replicate 10 (⟨"doc", false⟩ : SEntry)).length ≤
      (clampLimit (some 10)).toNat :=
  ⟨(c7_amended_clamps_and_stopping.1 (some 100000) none).1,
   c7_amended_clamps_and_stopping.2.1 ⟨fun _ => 0, 0, 5, 0⟩ "doc"
     [.file "doc"] ⟨[], 1, false⟩ (by decide),
   c7_amended_clamps_and_stopping.2.2.1 ⟨fun _ => 99, 0, 5, 10⟩ "doc"
     [.file "doc"] ⟨[], 1, false⟩ (by decide) (by decide),
   (c7_amended_clamps_and_stopping.2.2.2 (fun _ => 0) (mkFiles 1000) "doc"
     (some 10) (some 5) (List.replicate 10 ⟨"doc", false⟩) true false
     (by
       have hcl : clampLimit (some 10) = 10 := by decide
       have hct : clampTimeout (some 5) = 5 := by decide
       have htrim : jsTrim "doc" = "doc" := by decide
       have hgo : searchDirectory ⟨fun _ => 0, 0, 5, 10⟩ "doc"
           (mkFiles 1000) ⟨[], 1, false⟩ =
           dirLoop ⟨fun _ => 0, 0, 5, 10⟩ "doc" (mkFiles 1000)
             (fileLoop ⟨fun _ => 0, 0, 5, 10⟩ "doc" (mkFiles 1000)
               ⟨[], 2, false⟩) :=
         searchDirectory_go _ _ _ _ (by decide) (by decide)
       rw [dirLoop_mkFiles] at hgo
       simp only [searchHandler, hcl, hct, htrim, hgo]
       decide)).1⟩

/-- C8 counterexample: the claimed scenario — an empty query string
returning 10 truncated results — is impossible at the handler: an
empty (or all-whitespace) query is rejected with the 400 error before
any traversal happens. -/
theorem c8_empty_query_rejected :
    searchHandler (fun _ => 0) (mkFiles 1000) (some "") (some 10) (some 5) =
      .badRequest "Query parameter \"q\" is required." := by
  decide

/-- C8 amended: with an empty query the handler answers the 400
error; with any non-empty query matched by all 1000 entries of the
flat tree, limit 10 and a 5 ms timeout that never fires, it returns
exactly 10 results with truncated = true and timedOut = false. -/
theorem c8_amended_limit_truncates_at_ten :
    searchHandler (fun _ => 0) (mkFiles 1000) (some "") (some 10) (some 5) =
      .badRequest "Query parameter \"q\" is required." ∧
    searchHandler (fun _ => 0) (mkFiles 1000) (some "doc") (some 10) (some 5) =
      .ok (List.replicate 10 ⟨"doc", false⟩) true false := by
  refine ⟨by decide, ?_⟩
  have hcl : clampLimit (some 10) = 10 := by decide
  have hct : clampTimeout (some 5) = 5 := by decide
  have htrim : jsTrim "doc" = "doc" := by decide
  have hgo : searchDirectory ⟨fun _ => 0, 0, 5, 10⟩ "doc" (mkFiles 1000)
      ⟨[], 1, false⟩ =
      dirLoop ⟨fun _ => 0, 0, 5, 10⟩ "doc" (mkFiles 1000)
        (fileLoop ⟨fun _ => 0, 0, 5, 10⟩ "doc" (mkFiles 1000)
          ⟨[], 2, false⟩) :=
    searchDirectory_go _ _ _ _ (by decide) (by decide)
  rw [dirLoop_mkFiles] at hgo
  simp only [searchHandler, hcl, hct, htrim, hgo]
  decide

end FileVue
